import Mathlib

/-!
Verification of the TeamAugustusTimeline generators (`testLatest.py`, `binder.py`).

The development shallowly embeds the two Python scripts:

* the filename date parser `parse_date_from_filename` (a cascade of five
  anchored regular-expression attempts) and `humanize_title`,
* the thumbnail cache logic `ensure_thumbnail`,
* the event collector `collect_events` and the `main` entry points,

over an explicit model of the `images/` directory.  Python strings are
`String` / `List Char` (code-point comparisons, ASCII case mapping as in the
source's use sites), machine-independent; `datetime` construction is modelled
by an explicit calendar-validity check (`ValueError` on an invalid date is the
`none` branch, exactly as the `try/except` in the source).  File contents are
abstract `String`s; the external imaging library (PIL) and `shutil.copy2`
failures are oracles supplied by the environment, since they are outside the
repository.  The fixed HTML template is out of scope (pure string
substitution); writing the output file is modelled by the `Except.ok` result
of `main`.
-/

/-! ### Characters and code-point order

Python compares strings by code point; `sorted` on paths with a common parent
directory compares the file names the same way. -/

/-- Code-point comparison of two characters, `a < b` as in Python. -/
def charLt (a b : Char) : Bool := a.toNat < b.toNat

/-- Code-point lexicographic `≤` on character lists, Python string order. -/
def charsLe : List Char → List Char → Bool
  | [], _ => true
  | _ :: _, [] => false
  | a :: as', b :: bs' =>
    if a.toNat < b.toNat then true
    else if b.toNat < a.toNat then false
    else charsLe as' bs'

/-- A separator character, the class `[-_]` of the source's regexes. -/
def isSep (c : Char) : Bool := c = '-' || c = '_'

/-! ### `os.path.splitext`, `Path.suffix`, `Path.stem`

`splitext` strips the extension after the last dot, unless every character
before that dot is itself a dot (CPython's leading-dot rule for a bare file
name).  `pathlib`'s `suffix`/`stem` instead require the last dot to be at an
interior position `0 < i < len - 1`. -/

/-- Index of the last `'.'` in a character list, if any. -/
def lastDotIdx : List Char → Option Nat
  | [] => none
  | c :: cs =>
    match lastDotIdx cs with
    | some i => some (i + 1)
    | none => if c = '.' then some 0 else none

/-- `os.path.splitext(p)[0]` for a bare file name (no path separators). -/
def splitextStem (p : List Char) : List Char :=
  match lastDotIdx p with
  | none => p
  | some i => if (p.take i).all (fun c => c = '.') then p else p.take i

/-- `pathlib.PurePath.suffix` for a bare file name. -/
def pathSuffix (name : List Char) : List Char :=
  match lastDotIdx name with
  | none => []
  | some i => if 0 < i && i < name.length - 1 then name.drop i else []

/-- `pathlib.PurePath.stem` for a bare file name. -/
def pathStem (name : List Char) : List Char :=
  match lastDotIdx name with
  | none => name
  | some i => if 0 < i && i < name.length - 1 then name.take i else name

/-! ### Numerals -/

/-- `int()` on a string of decimal digits. -/
def natOfDigits (ds : List Char) : Nat :=
  ds.foldl (fun n c => 10 * n + (c.toNat - 48)) 0

/-- `str.zfill(2)`: left-pad with `'0'` to width 2. -/
def zfill2 (ds : List Char) : List Char :=
  List.replicate (2 - ds.length) '0' ++ ds

/-- The decimal digit character for `d < 10`. -/
def digitChar (d : Nat) : Char := Char.ofNat (48 + d)

/-- Two-digit zero-padded decimal rendering (`%02d`) of `n ≤ 99`. -/
def pad2 (n : Nat) : List Char := [digitChar (n / 10 % 10), digitChar (n % 10)]

/-- Four-digit zero-padded decimal rendering (`%04d`) of `n ≤ 9999`. -/
def pad4 (n : Nat) : List Char :=
  [digitChar (n / 1000 % 10), digitChar (n / 100 % 10),
   digitChar (n / 10 % 10), digitChar (n % 10)]

/-! ### The calendar, `datetime(y, m, d)`

`datetime` raises `ValueError` unless `1 ≤ y ≤ 9999`, `1 ≤ m ≤ 12` and
`1 ≤ d ≤` the length of that month; the source wraps each construction in
`try/except ValueError`, discarding invalid dates. -/

/-- Proleptic Gregorian leap year, as in `datetime`. -/
def isLeap (y : Nat) : Bool := y % 4 = 0 && (y % 100 ≠ 0 || y % 400 = 0)

/-- Days in month `m` of year `y`. -/
def daysInMonth (y m : Nat) : Nat :=
  if m = 2 then (if isLeap y then 29 else 28)
  else if m = 4 || m = 6 || m = 9 || m = 11 then 30
  else 31

/-- `datetime(y, m, d)` succeeds exactly when this holds. -/
def validDate (y m d : Nat) : Bool :=
  1 ≤ y && y ≤ 9999 && 1 ≤ m && m ≤ 12 && 1 ≤ d && d ≤ daysInMonth y m

/-- A parsed calendar date (`datetime` with zero time-of-day). -/
structure PDate where
  year : Nat
  month : Nat
  day : Nat
deriving DecidableEq

/-- `datetime.isoformat()` of a midnight datetime: `YYYY-MM-DDT00:00:00`. -/
def isoString (d : PDate) : String :=
  String.mk (pad4 d.year ++ '-' :: pad2 d.month ++ '-' :: pad2 d.day
    ++ "T00:00:00".data)

/-! ### The five regex attempts of `parse_date_from_filename`

Each pattern is anchored (`re.match` with `$`, except the fifth which is
`re.search`).  The quantifier `\d{1,2}` is greedy but the only backtracking a
match can require is already resolved by one character of lookahead: a
two-digit reading needs the next character to be a digit and a one-digit
reading needs it to be a separator, which cannot both hold.  The optional
trailing group `(?:[-_](.*))?$` matches iff the remainder is empty or starts
with a separator (in which case `(.*)` takes everything after it). -/

/-- The trailing `(?:[-_](.*))?$` of patterns 1-4: `none` on failure,
`some none` for the empty remainder, `some (some rest)` after a separator. -/
def optTail : List Char → Option (Option (List Char))
  | [] => some none
  | c :: cs => if isSep c then some (some cs) else none

/-- `(\d{1,2})(?:[-_](.*))?$`: the day field of pattern 1 and its tail. -/
def matchDD : List Char → Option (List Char × Option (List Char))
  | [] => none
  | [a] => if a.isDigit then some ([a], none) else none
  | a :: b :: rest =>
    if !a.isDigit then none
    else if b.isDigit then (optTail rest).map (fun t => ([a, b], t))
    else (optTail (b :: rest)).map (fun t => ([a], t))

/-- `(\d{1,2})[-_](\d{1,2})(?:[-_](.*))?$`: month then day of pattern 1. -/
def matchMMDD : List Char → Option (List Char × List Char × Option (List Char))
  | a :: b :: rest₂ =>
    if !a.isDigit then none
    else if b.isDigit then
      match rest₂ with
      | c :: rest₃ =>
        if isSep c then (matchDD rest₃).map (fun p => ([a, b], p.1, p.2))
        else none
      | [] => none
    else if isSep b then (matchDD rest₂).map (fun p => ([a], p.1, p.2))
    else none
  | _ => none

/-- Pattern 1: `^(\d{4})[-_](\d{1,2})[-_](\d{1,2})(?:[-_](.*))?$`. -/
def pat1 (name : List Char) :
    Option (List Char × List Char × List Char × Option (List Char)) :=
  match name with
  | y1 :: y2 :: y3 :: y4 :: s :: rest =>
    if y1.isDigit && y2.isDigit && y3.isDigit && y4.isDigit && isSep s then
      (matchMMDD rest).map (fun p => ([y1, y2, y3, y4], p.1, p.2.1, p.2.2))
    else none
  | _ => none

/-- `(\d{4})(?:[-_](.*))?$`: the year-then-tail suffix of patterns 2-4. -/
def matchY4Tail : List Char → Option (List Char × Option (List Char))
  | y1 :: y2 :: y3 :: y4 :: rest =>
    if y1.isDigit && y2.isDigit && y3.isDigit && y4.isDigit then
      (optTail rest).map (fun t => ([y1, y2, y3, y4], t))
    else none
  | _ => none

/-- `(\d{1,2})-` followed by a continuation: the numeric fields of
patterns 2 and 3 (these two patterns only accept `-` between fields). -/
def matchNN {β : Type} (k : List Char → Option β) :
    List Char → Option (List Char × β)
  | a :: b :: rest =>
    if !a.isDigit then none
    else if b.isDigit then
      match rest with
      | c :: rest' =>
        if c = '-' then (k rest').map (fun v => ([a, b], v)) else none
      | [] => none
    else if b = '-' then (k rest).map (fun v => ([a], v))
    else none
  | _ => none

/-- Pattern 2: `^(\d{1,2})-(\d{1,2})-(\d{4})(?:[-_](.*))?$`. -/
def pat2 (name : List Char) :
    Option (List Char × List Char × List Char × Option (List Char)) :=
  (matchNN (matchNN matchY4Tail) name).map
    (fun p => (p.1, p.2.1, p.2.2.1, p.2.2.2))

/-- Pattern 3: `^(\d{1,2})-(\d{4})(?:[-_](.*))?$`. -/
def pat3 (name : List Char) :
    Option (List Char × List Char × Option (List Char)) :=
  (matchNN matchY4Tail name).map (fun p => (p.1, p.2.1, p.2.2))

/-- Pattern 4: `^(\d{4})(?:[-_](.*))?$`. -/
def pat4 (name : List Char) : Option (List Char × Option (List Char)) :=
  matchY4Tail name

/-- Pattern 5: `re.search(r"(19|20)\d{2}", name)` — the leftmost four-digit
run starting with `19` or `20`; returns the matched characters. -/
def findYear : List Char → Option (List Char)
  | a :: b :: c :: d :: rest =>
    if ((a = '1' && b = '9') || (a = '2' && b = '0')) && c.isDigit && d.isDigit
    then some [a, b, c, d]
    else findYear (b :: c :: d :: rest)
  | _ => none

/-- `str.replace(pat, "")`, written with an explicit length bound as fuel
so that the recursion is structural: remove every (leftmost,
non-overlapping) occurrence of `pat`.  When an occurrence is removed the
scan resumes after it; each step consumes at least one character, so
`s.length` steps always suffice. -/
def replaceAllFuel (pat : List Char) : Nat → List Char → List Char
  | 0, s => s
  | _ + 1, [] => []
  | n + 1, c :: cs =>
    if pat ≠ [] && pat.isPrefixOf (c :: cs) then
      replaceAllFuel pat n ((c :: cs).drop pat.length)
    else
      c :: replaceAllFuel pat n cs

/-- `str.replace(pat, "")`. -/
def replaceAll (pat s : List Char) : List Char :=
  replaceAllFuel pat s.length s

/-- `re.sub(r"^[-_]+|[-_]+$", "", s)`: trim separators from both ends. -/
def trimSeps (s : List Char) : List Char :=
  ((s.dropWhile isSep).reverse.dropWhile isSep).reverse

/-- Result triple of `parse_date_from_filename`:
`(date_obj, label, rest_slug)`. -/
structure ParseResult where
  date : Option PDate
  label : String
  slug : String
deriving DecidableEq

/-- The pattern cascade of `parse_date_from_filename`, applied to the
extension-stripped name: try the five patterns in order; an invalid calendar
date becomes `none` (the `except ValueError` branch) while the label is
still produced. -/
def parseFromStem (name : List Char) : ParseResult :=
  match pat1 name with
  | some (yy, mm, dd, rest) =>
    { date :=
        if validDate (natOfDigits yy) (natOfDigits mm) (natOfDigits dd) then
          some ⟨natOfDigits yy, natOfDigits mm, natOfDigits dd⟩
        else none,
      label := String.mk (yy ++ '-' :: zfill2 mm ++ '-' :: zfill2 dd),
      slug := String.mk (rest.getD []) }
  | none =>
  match pat2 name with
  | some (dd, mm, yy, rest) =>
    { date :=
        if validDate (natOfDigits yy) (natOfDigits mm) (natOfDigits dd) then
          some ⟨natOfDigits yy, natOfDigits mm, natOfDigits dd⟩
        else none,
      label := String.mk (zfill2 dd ++ '-' :: zfill2 mm ++ '-' :: yy),
      slug := String.mk (rest.getD []) }
  | none =>
  match pat3 name with
  | some (mm, yy, rest) =>
    { date :=
        if validDate (natOfDigits yy) (natOfDigits mm) 1 then
          some ⟨natOfDigits yy, natOfDigits mm, 1⟩
        else none,
      label := String.mk (zfill2 mm ++ '-' :: yy),
      slug := String.mk (rest.getD []) }
  | none =>
  match pat4 name with
  | some (yy, rest) =>
    { date :=
        if validDate (natOfDigits yy) 1 1 then
          some ⟨natOfDigits yy, 1, 1⟩
        else none,
      label := String.mk yy,
      slug := String.mk (rest.getD []) }
  | none =>
  match findYear name with
  | some ys =>
    { date :=
        if validDate (natOfDigits ys) 1 1 then
          some ⟨natOfDigits ys, 1, 1⟩
        else none,
      label := String.mk ys,
      slug := String.mk (trimSeps (replaceAll ys name)) }
  | none => { date := none, label := String.mk name, slug := "" }

/-- `parse_date_from_filename` of `testLatest.py`:
`name = os.path.splitext(filename)[0]`, then the cascade. -/
def parse_date_from_filename (filename : String) : ParseResult :=
  parseFromStem (splitextStem filename.data)

/-! ### `humanize_title` -/

/-- Python's `\w` on the ASCII range: letters, digits, underscore. -/
def isWordChar (c : Char) : Bool := c.isAlphanum || c = '_'

/-- `re.sub(r"[-_]+", " ", s)`: collapse each separator run to one space.
The flag records whether the previous character was a separator, so a run
contributes exactly one space. -/
def collapseSepsAux : Bool → List Char → List Char
  | _, [] => []
  | prevSep, c :: cs =>
    if isSep c then
      if prevSep then collapseSepsAux true cs
      else ' ' :: collapseSepsAux true cs
    else c :: collapseSepsAux false cs

/-- `re.sub(r"[-_]+", " ", s)`. -/
def collapseSeps (s : List Char) : List Char :=
  collapseSepsAux false s

/-- `str.strip()`: drop whitespace from both ends. -/
def stripWS (s : List Char) : List Char :=
  ((s.dropWhile Char.isWhitespace).reverse.dropWhile Char.isWhitespace).reverse

/-- `re.sub(r"\b\w", upper, s)`: uppercase each word character that follows
a non-word character (or the start); `prev` records whether the previous
character was a word character. -/
def upperWords : Bool → List Char → List Char
  | _, [] => []
  | prev, c :: cs =>
    (if isWordChar c && !prev then c.toUpper else c) ::
      upperWords (isWordChar c) cs

/-- `humanize_title` of `testLatest.py`. -/
def humanize_title (slug : String) : String :=
  if slug = "" then "Untitled"
  else String.mk (upperWords false (stripWS (collapseSeps slug.data)))

/-! ### The filesystem model

`collect_events` reads the direct children of `images/` (`IMAGES_DIR.iterdir`)
— image files, optional `.txt`/`.jxl` sidecars, and the `thumbs` subdirectory
itself (not a file, so skipped by `entry.is_file()`).  Thumbnails live in
`images/thumbs/`, modelled separately as an association of file names to
contents.  Thumbnail generation (PIL) and `shutil.copy2` failure are outside
the repository: they are oracles in the environment.  `copy2` on success
copies the original bytes verbatim. -/

/-- One direct child of `images/`: its name, whether it is a regular file,
and its contents (as read by `read_text` / copied by `copy2`). -/
structure DirEntry where
  name : String
  isFile : Bool
  content : String
deriving DecidableEq

/-- The static environment of one run. -/
structure Env where
  /-- `IMAGES_DIR.is_dir()` -/
  imagesDirExists : Bool
  /-- direct children of `images/`, in arbitrary directory order -/
  entries : List DirEntry
  /-- the imaging library: thumbnail bytes, or `none` when
  open/convert/thumbnail/save raises -/
  gen : DirEntry → Option String
  /-- whether `shutil.copy2` raises for this source file -/
  copyFails : DirEntry → Bool

/-- A warning printed by `ensure_thumbnail`. -/
inductive Warn where
  /-- `[WARN] could not create thumbnail for …` -/
  | thumbFail (name : String) : Warn
  /-- `[WARN] and could not copy original either: …` -/
  | copyFail (name : String) : Warn
deriving DecidableEq

/-- The mutable filesystem state threaded through a run: the
`images/thumbs/` directory and the warnings printed so far. -/
structure RunState where
  thumbsDirExists : Bool
  thumbs : List (String × String)
  log : List Warn
deriving DecidableEq

/-- Look a file name up in a directory listing (association list). -/
def fsLookup : List (String × String) → String → Option String
  | [], _ => none
  | (n, c) :: rest, k => if n = k then some c else fsLookup rest k

/-- Write a file: replace any entry of the same name. -/
def fsWrite (m : List (String × String)) (name content : String) :
    List (String × String) :=
  (name, content) :: m.filter (fun p => p.1 ≠ name)

/-- A path, as far as the script observes one: parent directory and
final component (`Path.name`). -/
structure FPath where
  parent : String
  name : String
deriving DecidableEq

/-- `ensure_thumbnail` of `testLatest.py`: create the cache directory,
return the cached file if present; otherwise try the imaging library, fall
back to copying the original verbatim, and on a second failure only log. -/
def ensure_thumbnail (env : Env) (st : RunState) (e : DirEntry) :
    RunState × FPath :=
  match fsLookup st.thumbs e.name with
  | some _ => ({ st with thumbsDirExists := true }, ⟨"images/thumbs", e.name⟩)
  | none =>
    match env.gen e with
    | some tb =>
      ({ st with
          thumbsDirExists := true,
          thumbs := fsWrite st.thumbs e.name tb }, ⟨"images/thumbs", e.name⟩)
    | none =>
      if env.copyFails e then
        ({ st with
            thumbsDirExists := true,
            log := st.log ++ [Warn.thumbFail e.name, Warn.copyFail e.name] },
         ⟨"images/thumbs", e.name⟩)
      else
        ({ st with
            thumbsDirExists := true,
            thumbs := fsWrite st.thumbs e.name e.content,
            log := st.log ++ [Warn.thumbFail e.name] },
         ⟨"images/thumbs", e.name⟩)

/-- One timeline event, the dictionary appended per image (after the final
`sort_key` pop). -/
structure Event where
  image : String
  full_image : String
  jxl_image : Option String
  date_label : String
  file_label : String
  title : String
  description : String
  text : String
  year : Option Nat
deriving DecidableEq

/-- An event together with its parsed date; the source keeps
`sort_key = dt.isoformat() if dt else None` in the dictionary until after
sorting, which is the image of `dt` under `Option.map isoString`. -/
structure WK where
  ev : Event
  dt : Option PDate
deriving DecidableEq

/-- First directory entry of the given name, if any (`Path.exists()` plus
`read_text` for the sidecar probes). -/
def entryLookup : List DirEntry → String → Option DirEntry
  | [], _ => none
  | e :: es, k => if e.name = k then some e else entryLookup es k

/-- The year stored in the event: from the parsed date when present, else
the first `19xx`/`20xx` run of the label, else of the extension-stripped
file name. -/
def derivedYear (pr : ParseResult) (baseNoExt : String) : Option Nat :=
  match pr.date with
  | some d => some d.year
  | none =>
    match findYear pr.label.data with
    | some ys => some (natOfDigits ys)
    | none =>
      match findYear baseNoExt.data with
      | some ys => some (natOfDigits ys)
      | none => none

/-- Assemble the event dictionary for one accepted image file;
`thumbName` is `thumb_path.name` for the path `ensure_thumbnail` returned. -/
def mkWK (entries : List DirEntry) (e : DirEntry) (thumbName : String) : WK :=
  let pr := parse_date_from_filename e.name
  let baseNoExt := String.mk (splitextStem e.name.data)
  let title := humanize_title
    (if pr.slug = "" then String.mk (pathStem e.name.data) else pr.slug)
  let text :=
    match entryLookup entries (baseNoExt ++ ".txt") with
    | some ent => ent.content
    | none => ""
  let jxl :=
    if (entryLookup entries (baseNoExt ++ ".jxl")).isSome then
      some ("images/" ++ baseNoExt ++ ".jxl")
    else none
  { ev :=
      { image := "images/thumbs/" ++ thumbName,
        full_image := "images/" ++ e.name,
        jxl_image := jxl,
        date_label := pr.label,
        file_label := baseNoExt,
        title := title,
        description := "",
        text := text,
        year := derivedYear pr baseNoExt },
    dt := pr.date }

/-- The loop-body filter: `entry.is_file()` and
`entry.suffix.lower() in {".jpg", ".jpeg", ".png"}`. -/
def qual (e : DirEntry) : Bool :=
  e.isFile &&
    [".jpg", ".jpeg", ".png"].contains
      (String.mk ((pathSuffix e.name.data).map Char.toLower))

/-- One iteration of the `for entry in sorted(IMAGES_DIR.iterdir())` loop:
skip non-files and foreign extensions, otherwise make the thumbnail and
append the event. -/
def processEntry (env : Env) (st : RunState) (e : DirEntry) :
    RunState × Option WK :=
  if qual e then
    let r := ensure_thumbnail env st e
    (r.1, some (mkWK env.entries e r.2.name))
  else (st, none)

/-- Run the loop over a list of entries. -/
def runEntries (env : Env) (st : RunState) :
    List DirEntry → RunState × List WK
  | [] => (st, [])
  | e :: es =>
    let r := processEntry env st e
    let rec' := runEntries env r.1 es
    (rec'.1, match r.2 with | some wk => wk :: rec'.2 | none => rec'.2)

/-- `sorted(IMAGES_DIR.iterdir())`: Python sorts the paths, which all share
the parent `images/`, by code point — i.e. by file name. -/
def entryLe (a b : DirEntry) : Bool := charsLe a.name.data b.name.data

/-- The sort key of `events.sort`:
`(ev["sort_key"] is None, ev["sort_key"] or "")`, compared as a Python
tuple (`False < True`, then string order). -/
def keyLe (x y : Bool × String) : Bool :=
  if x.1 = y.1 then charsLe x.2.data y.2.data else !x.1 && y.1

/-- `sort_key` of a collected event: `dt.isoformat() if dt else None`. -/
def sortKey (w : WK) : Option String := w.dt.map isoString

/-- The event order used by `events.sort` (Python's stable Timsort is
modelled by the stable `List.mergeSort`). -/
def evLe (a b : WK) : Bool :=
  keyLe (a.dt.isNone, (sortKey a).getD "") (b.dt.isNone, (sortKey b).getD "")

/-- `collect_events` of `testLatest.py`: `SystemExit` when `images/` is not
a directory (the `Except.error` case); otherwise scan, assemble, and
stable-sort, returning the final state and the event list. -/
def collect_events (env : Env) (st : RunState) :
    Except String (RunState × List Event) :=
  if env.imagesDirExists then
    let r := runEntries env st ((env.entries).mergeSort entryLe)
    Except.ok (r.1, (r.2.mergeSort evLe).map (·.ev))
  else Except.error "Images directory not found: images"

/-- `main` of `testLatest.py`: collect the events and write
`timeline.html` (the HTML templating itself is pure string substitution and
out of scope; `Except.ok` means the output file was written, with the given
events embedded). -/
def timelineMain (env : Env) (st : RunState) :
    Except String (RunState × List Event) :=
  collect_events env st

/-- The extension filter of `binder.py`:
`f.lower().endswith((".png", ".jpg", ".jpeg", ".gif", ".webp"))`. -/
def binderExtOk (f : String) : Bool :=
  let l := f.data.map Char.toLower
  [".png", ".jpg", ".jpeg", ".gif", ".webp"].any
    (fun s => s.data.reverse.isPrefixOf l.reverse)

/-- `binder.py`: list, filter, sort; the page is always written (`true`),
with the serialized image list. -/
def binderMain (names : List String) : List String × Bool :=
  ((names.filter binderExtOk).mergeSort (fun a b => charsLe a.data b.data),
    true)

/-! ### ISO strings compare like dates -/

/-- Chronological order on calendar dates (lexicographic on
year, month, day). -/
def dateLe (a b : PDate) : Prop :=
  a.year < b.year ∨ (a.year = b.year ∧
    (a.month < b.month ∨ (a.month = b.month ∧ a.day ≤ b.day)))

/-! ### The collector pipeline, characterised -/

/-- The event list the run produces, as a pure function of the directory
listing alone: lexicographic scan, filter, assemble, stable date sort.  That
the run really computes this — independently of the thumbnail cache state
and of thumbnail/copy failures — is proved below, not assumed. -/
def eventsOf (entries : List DirEntry) : List Event :=
  (((((entries.mergeSort entryLe).filter qual)).map
    (fun e => mkWK entries e e.name)).mergeSort evLe).map (·.ev)

/-! ### Thumbnail cache state across a run -/

/-- Nothing more will ever change for this file's thumbnail: either it
exists in the cache, or both the generator and the fallback copy fail. -/
def settled (env : Env) (st : RunState) (e : DirEntry) : Prop :=
  (fsLookup st.thumbs e.name).isSome = true ∨
    (env.gen e = none ∧ env.copyFails e = true)

/-! ### Matching a well-formed `YYYY-MM-DD[-slug]` stem -/

/-- The captured `(.*)` group of a trailing `(?:[-_](.*))?$`, given the
remainder of the stem after the day field. -/
def tailOptOf : List Char → Option (List Char)
  | [] => none
  | _ :: slug => some slug

/-! ### The final sort (C2) -/

/-- The assembly-order event list: lexicographic scan of the accepted
files, one record each (order as appended by the loop). -/
def assembledWKs (entries : List DirEntry) : List WK :=
  ((entries.mergeSort entryLe).filter qual).map
    (fun e => mkWK entries e e.name)

/-- The event records after `events.sort`. -/
def collectedWKs (entries : List DirEntry) : List WK :=
  (assembledWKs entries).mergeSort evLe

/-! ### Sample environments (used to instantiate the theorems) -/

deriving instance DecidableEq for Except

/-- One well-named image file. -/
def sampleEntry : DirEntry := ⟨"2024-01-15-briefing.jpg", true, "img"⟩

/-- A directory with that one image; thumbnailing succeeds. -/
def sampleEnv : Env :=
  { imagesDirExists := true, entries := [sampleEntry],
    gen := fun _ => some "tb", copyFails := fun _ => false }

/-- The state before a first run: no thumbnails, nothing logged. -/
def emptyState : RunState := ⟨false, [], []⟩

/-- The state after running the collector in `sampleEnv`. -/
def sampleState1 : RunState :=
  ⟨true, [("2024-01-15-briefing.jpg", "tb")], []⟩

/-- The single event collected in `sampleEnv`. -/
def sampleEvent : Event :=
  { image := "images/thumbs/2024-01-15-briefing.jpg",
    full_image := "images/2024-01-15-briefing.jpg",
    jxl_image := none,
    date_label := "2024-01-15",
    file_label := "2024-01-15-briefing",
    title := "Briefing",
    description := "",
    text := "",
    year := some 2024 }

/-- The same directory, but the imaging library fails and the fallback
copy succeeds. -/
def genFailEnv : Env :=
  { imagesDirExists := true, entries := [sampleEntry],
    gen := fun _ => none, copyFails := fun _ => false }

/-- Both the imaging library and the fallback copy fail. -/
def bothFailEnv : Env :=
  { imagesDirExists := true, entries := [sampleEntry],
    gen := fun _ => none, copyFails := fun _ => true }

/-- The images directory exists but holds no image files. -/
def envNoImages : Env :=
  { imagesDirExists := true, entries := [], gen := fun _ => none,
    copyFails := fun _ => true }

/-- The images directory is missing. -/
def envMissing : Env :=
  { imagesDirExists := false, entries := [], gen := fun _ => none,
    copyFails := fun _ => true }

/-- The cache already holds a (stale) thumbnail for the sample image. -/
def thumbedState : RunState := ⟨true, [("2024-01-15-briefing.jpg", "old")], []⟩

/-! ### Order facts about the comparison functions -/

theorem charsLe_refl (s : List Char) : charsLe s s = true := by
  induction s with
  | nil => rfl
  | cons a as' ih => simp [charsLe, ih]

theorem charsLe_trans : ∀ a b c : List Char,
    charsLe a b = true → charsLe b c = true → charsLe a c = true := by
  intro a
  induction a with
  | nil => intro b c _ _; rfl
  | cons x xs ih =>
    intro b c hab hbc
    cases b with
    | nil => simp [charsLe] at hab
    | cons y ys =>
      cases c with
      | nil => simp [charsLe] at hbc
      | cons z zs =>
        simp only [charsLe] at hab hbc ⊢
        split_ifs at hab hbc ⊢ <;>
          first | rfl | exact ih ys zs hab hbc | omega

theorem charsLe_total (a b : List Char) :
    charsLe a b = true ∨ charsLe b a = true := by
  induction a generalizing b with
  | nil => left; rfl
  | cons x xs ih =>
    cases b with
    | nil => right; rfl
    | cons y ys =>
      simp only [charsLe]
      split_ifs <;> first | (left; rfl) | (right; rfl) |
        exact (ih ys).imp (fun h => h) (fun h => h)

theorem charsLe_antisymm : ∀ a b : List Char,
    charsLe a b = true → charsLe b a = true → a = b := by
  intro a
  induction a with
  | nil =>
    intro b _ hba
    cases b with
    | nil => rfl
    | cons y ys => simp [charsLe] at hba
  | cons x xs ih =>
    intro b hab hba
    cases b with
    | nil => simp [charsLe] at hab
    | cons y ys =>
      simp only [charsLe] at hab hba
      split_ifs at hab hba <;> try omega
      have hxy : x = y := by
        rename_i h1 h2
        have : x.toNat = y.toNat := by omega
        exact Char.eq_of_val_eq (UInt32.toNat.inj this)
      rw [hxy, ih ys hab hba]

theorem keyLe_trans (x y z : Bool × String) (h1 : keyLe x y = true)
    (h2 : keyLe y z = true) : keyLe x z = true := by
  obtain ⟨b1, s1⟩ := x
  obtain ⟨b2, s2⟩ := y
  obtain ⟨b3, s3⟩ := z
  simp only [keyLe] at h1 h2 ⊢
  cases b1 <;> cases b2 <;> cases b3 <;> simp_all <;>
    exact charsLe_trans _ _ _ h1 h2

theorem keyLe_total (x y : Bool × String) :
    keyLe x y = true ∨ keyLe y x = true := by
  obtain ⟨b1, s1⟩ := x
  obtain ⟨b2, s2⟩ := y
  simp only [keyLe]
  cases b1 <;> cases b2 <;> simp_all <;> exact charsLe_total _ _

theorem keyLe_refl (x : Bool × String) : keyLe x x = true := by
  simp [keyLe, charsLe_refl]

theorem evLe_trans (a b c : WK) (h1 : evLe a b = true) (h2 : evLe b c = true) :
    evLe a c = true := keyLe_trans _ _ _ h1 h2

theorem evLe_total (a b : WK) : evLe a b = true ∨ evLe b a = true :=
  keyLe_total _ _

theorem entryLe_trans (a b c : DirEntry) (h1 : entryLe a b = true)
    (h2 : entryLe b c = true) : entryLe a c = true :=
  charsLe_trans _ _ _ h1 h2

theorem entryLe_total (a b : DirEntry) :
    entryLe a b = true ∨ entryLe b a = true := charsLe_total _ _

/-! ### Decimal padding versus numeric order -/

theorem digitChar_toNat (d : Nat) (h : d < 10) :
    (digitChar d).toNat = 48 + d := by
  interval_cases d <;> decide

theorem charsLe_pad4 (a b : Nat) (ha : a ≤ 9999) (hb : b ≤ 9999) :
    (charsLe (pad4 a) (pad4 b) = true) ↔ a ≤ b := by
  have h1 := digitChar_toNat (a / 1000 % 10) (Nat.mod_lt _ (by norm_num))
  have h2 := digitChar_toNat (a / 100 % 10) (Nat.mod_lt _ (by norm_num))
  have h3 := digitChar_toNat (a / 10 % 10) (Nat.mod_lt _ (by norm_num))
  have h4 := digitChar_toNat (a % 10) (Nat.mod_lt _ (by norm_num))
  have h5 := digitChar_toNat (b / 1000 % 10) (Nat.mod_lt _ (by norm_num))
  have h6 := digitChar_toNat (b / 100 % 10) (Nat.mod_lt _ (by norm_num))
  have h7 := digitChar_toNat (b / 10 % 10) (Nat.mod_lt _ (by norm_num))
  have h8 := digitChar_toNat (b % 10) (Nat.mod_lt _ (by norm_num))
  simp only [pad4, charsLe, h1, h2, h3, h4, h5, h6, h7, h8]
  split_ifs <;> simp_all <;> omega

theorem charsLe_pad2 (a b : Nat) (ha : a ≤ 99) (hb : b ≤ 99) :
    (charsLe (pad2 a) (pad2 b) = true) ↔ a ≤ b := by
  have h1 := digitChar_toNat (a / 10 % 10) (Nat.mod_lt _ (by norm_num))
  have h2 := digitChar_toNat (a % 10) (Nat.mod_lt _ (by norm_num))
  have h3 := digitChar_toNat (b / 10 % 10) (Nat.mod_lt _ (by norm_num))
  have h4 := digitChar_toNat (b % 10) (Nat.mod_lt _ (by norm_num))
  simp only [pad2, charsLe, h1, h2, h3, h4]
  split_ifs <;> simp_all <;> omega

theorem pad4_inj (a b : Nat) (ha : a ≤ 9999) (hb : b ≤ 9999) :
    pad4 a = pad4 b ↔ a = b := by
  constructor
  · intro h
    have hab : charsLe (pad4 a) (pad4 b) = true := by rw [h]; exact charsLe_refl _
    have hba : charsLe (pad4 b) (pad4 a) = true := by rw [h]; exact charsLe_refl _
    have := (charsLe_pad4 a b ha hb).mp hab
    have := (charsLe_pad4 b a hb ha).mp hba
    omega
  · intro h; rw [h]

theorem pad2_inj (a b : Nat) (ha : a ≤ 99) (hb : b ≤ 99) :
    pad2 a = pad2 b ↔ a = b := by
  constructor
  · intro h
    have hab : charsLe (pad2 a) (pad2 b) = true := by rw [h]; exact charsLe_refl _
    have hba : charsLe (pad2 b) (pad2 a) = true := by rw [h]; exact charsLe_refl _
    have := (charsLe_pad2 a b ha hb).mp hab
    have := (charsLe_pad2 b a hb ha).mp hba
    omega
  · intro h; rw [h]

theorem charsLe_append (xs ys u v : List Char) (h : xs.length = ys.length) :
    charsLe (xs ++ u) (ys ++ v) =
      (if xs = ys then charsLe u v else charsLe xs ys) := by
  induction xs generalizing ys with
  | nil =>
    cases ys with
    | nil => simp
    | cons y ys' => simp at h
  | cons x xs' ih =>
    cases ys with
    | nil => simp at h
    | cons y ys' =>
      simp only [List.length_cons, Nat.succ.injEq] at h
      simp only [List.cons_append, charsLe]
      by_cases hxy : x.toNat < y.toNat
      · have : x ≠ y := by
          intro hc; rw [hc] at hxy; omega
        simp [hxy, this]
      · by_cases hyx : y.toNat < x.toNat
        · have : x ≠ y := by
            intro hc; rw [hc] at hyx; omega
          simp [hxy, hyx, this]
        · have hx : x = y := by
            have : x.toNat = y.toNat := by omega
            exact Char.eq_of_val_eq (UInt32.toNat.inj this)
          subst hx
          simp only [hxy, if_neg, if_false, List.append_eq]
          rw [ih ys' h]
          by_cases hl : xs' = ys' <;> simp [hl, charsLe, hxy]

theorem daysInMonth_le (y m : Nat) : daysInMonth y m ≤ 31 := by
  unfold daysInMonth
  split_ifs <;> omega

theorem validDate_bounds {y m d : Nat} (h : validDate y m d = true) :
    1 ≤ y ∧ y ≤ 9999 ∧ 1 ≤ m ∧ m ≤ 12 ∧ 1 ≤ d ∧ d ≤ 31 := by
  have hd := daysInMonth_le y m
  simp only [validDate, Bool.and_eq_true, decide_eq_true_eq] at h
  omega

theorem charsLe_cons_same (c : Char) (u v : List Char) :
    charsLe (c :: u) (c :: v) = charsLe u v := by
  simp [charsLe]

theorem length_pad4 (n : Nat) : (pad4 n).length = 4 := by simp [pad4]

theorem length_pad2 (n : Nat) : (pad2 n).length = 2 := by simp [pad2]

/-- Because `isoformat` zero-pads every field, code-point order on the ISO
strings of two valid dates is exactly chronological order. -/
theorem charsLe_iso (d1 d2 : PDate)
    (h1 : validDate d1.year d1.month d1.day = true)
    (h2 : validDate d2.year d2.month d2.day = true) :
    (charsLe (isoString d1).data (isoString d2).data = true) ↔ dateLe d1 d2 := by
  obtain ⟨hy1, hy1b, hm1, hm1b, hd1, hd1b⟩ := validDate_bounds h1
  obtain ⟨hy2, hy2b, hm2, hm2b, hd2, hd2b⟩ := validDate_bounds h2
  show charsLe (pad4 d1.year ++ '-' :: pad2 d1.month ++ '-' :: pad2 d1.day
      ++ "T00:00:00".data)
    (pad4 d2.year ++ '-' :: pad2 d2.month ++ '-' :: pad2 d2.day
      ++ "T00:00:00".data) = true ↔ dateLe d1 d2
  simp only [List.append_assoc, List.cons_append]
  rw [charsLe_append _ _ _ _ ((length_pad4 _).trans (length_pad4 _).symm)]
  unfold dateLe
  by_cases hy : pad4 d1.year = pad4 d2.year
  · have hyy : d1.year = d2.year :=
      (pad4_inj _ _ (by omega) (by omega)).mp hy
    rw [if_pos hy, charsLe_cons_same,
      charsLe_append _ _ _ _ ((length_pad2 _).trans (length_pad2 _).symm)]
    by_cases hm : pad2 d1.month = pad2 d2.month
    · have hmm : d1.month = d2.month :=
        (pad2_inj _ _ (by omega) (by omega)).mp hm
      rw [if_pos hm, charsLe_cons_same,
        charsLe_append _ _ _ _ ((length_pad2 _).trans (length_pad2 _).symm)]
      by_cases hd : pad2 d1.day = pad2 d2.day
      · have hdd : d1.day = d2.day :=
          (pad2_inj _ _ (by omega) (by omega)).mp hd
        rw [if_pos hd]
        simp [charsLe_refl, hyy, hmm, hdd]
      · rw [if_neg hd, charsLe_pad2 _ _ (by omega) (by omega)]
        have hdd : d1.day ≠ d2.day := fun hc =>
          hd ((pad2_inj _ _ (by omega) (by omega)).mpr hc)
        constructor
        · intro h; omega
        · intro h; omega
    · rw [if_neg hm, charsLe_pad2 _ _ (by omega) (by omega)]
      have hmm : d1.month ≠ d2.month := fun hc =>
        hm ((pad2_inj _ _ (by omega) (by omega)).mpr hc)
      constructor
      · intro h; omega
      · intro h; omega
  · rw [if_neg hy, charsLe_pad4 _ _ (by omega) (by omega)]
    have hyy : d1.year ≠ d2.year := fun hc =>
      hy ((pad4_inj _ _ (by omega) (by omega)).mpr hc)
    constructor
    · intro h; omega
    · intro h; omega

/-! ### Stability of the sort

A stable sort leaves the elements of any one equivalence class of the order
in their original relative order: filtering the sorted list down to one sort
key gives the same list as filtering the input. -/

theorem filter_mergeSort_eq {α : Type} (le : α → α → Bool)
    (trans : ∀ a b c : α, le a b → le b c → le a c)
    (total : ∀ a b : α, le a b || le b a)
    (p : α → Bool)
    (hp : ∀ a b, p a = true → p b = true → le a b = true)
    (l : List α) :
    (l.mergeSort le).filter p = l.filter p := by
  have hmem : ∀ a ∈ l.filter p, p a = true := fun a ha =>
    (List.mem_filter.mp ha).2
  have hpw : (l.filter p).Pairwise (fun a b => le a b) :=
    List.pairwise_of_forall_mem_list
      (fun a ha b hb => hp a b (hmem a ha) (hmem b hb))
  have hsub : List.Sublist (l.filter p) (l.mergeSort le) :=
    List.sublist_mergeSort trans total hpw (List.filter_sublist l)
  have hsub2 : List.Sublist (l.filter p) ((l.mergeSort le).filter p) := by
    have h2 := hsub.filter p
    simpa only [List.filter_filter, Bool.and_self] using h2
  exact ((hsub2.eq_of_length
    (((List.mergeSort_perm l le).filter p).length_eq.symm.trans
      (by rfl))).symm)

theorem fsLookup_filter_ne (m : List (String × String)) (n k : String)
    (h : n ≠ k) :
    fsLookup (m.filter (fun p => p.1 ≠ n)) k = fsLookup m k := by
  induction m with
  | nil => rfl
  | cons p ps ih =>
    obtain ⟨p1, p2⟩ := p
    simp only [ne_eq, decide_not] at ih ⊢
    simp only [List.filter_cons]
    by_cases hp : p1 = n
    · subst hp
      have hk : ¬ p1 = k := h
      simp [fsLookup, hk, ih]
    · simp [hp, fsLookup, ih]

theorem fsLookup_fsWrite (m : List (String × String)) (n c k : String) :
    fsLookup (fsWrite m n c) k = if n = k then some c else fsLookup m k := by
  simp only [fsWrite, fsLookup]
  by_cases h : n = k
  · simp [h]
  · simp only [h, if_false, ne_eq]
    exact fsLookup_filter_ne m n k h

theorem ensure_thumbnail_path (env : Env) (st : RunState) (e : DirEntry) :
    (ensure_thumbnail env st e).2 = ⟨"images/thumbs", e.name⟩ := by
  unfold ensure_thumbnail
  cases fsLookup st.thumbs e.name with
  | some c => rfl
  | none =>
    cases env.gen e with
    | some tb => rfl
    | none =>
      by_cases hc : env.copyFails e <;> simp [hc]

theorem processEntry_snd (env : Env) (st : RunState) (e : DirEntry) :
    (processEntry env st e).2 =
      if qual e then some (mkWK env.entries e e.name) else none := by
  unfold processEntry
  by_cases h : qual e
  · simp [h, ensure_thumbnail_path]
  · simp [h]

theorem runEntries_snd (env : Env) (st : RunState) (es : List DirEntry) :
    (runEntries env st es).2 =
      (es.filter qual).map (fun e => mkWK env.entries e e.name) := by
  induction es generalizing st with
  | nil => simp [runEntries]
  | cons f fs ih =>
    simp only [runEntries, List.filter_cons]
    rw [processEntry_snd]
    by_cases h : qual f
    · simp [h, ih]
    · simp [h, ih]

theorem collect_events_ok (env : Env) (st : RunState)
    (h : env.imagesDirExists = true) :
    collect_events env st =
      Except.ok ((runEntries env st (env.entries.mergeSort entryLe)).1,
        eventsOf env.entries) := by
  simp [collect_events, h, eventsOf, runEntries_snd]

theorem ensure_thumbnail_lookup_mono (env : Env) (st : RunState)
    (e : DirEntry) (n b : String)
    (h : fsLookup st.thumbs n = some b) :
    fsLookup (ensure_thumbnail env st e).1.thumbs n = some b := by
  have hwrite : ∀ c : String, fsLookup st.thumbs e.name = none →
      fsLookup (fsWrite st.thumbs e.name c) n = some b := by
    intro c hl
    rw [fsLookup_fsWrite]
    by_cases he : e.name = n
    · rw [← he] at h; rw [h] at hl; cases hl
    · simp [he, h]
  unfold ensure_thumbnail
  cases hl : fsLookup st.thumbs e.name with
  | some c => simpa using h
  | none =>
    cases hg : env.gen e with
    | some tb => simpa using hwrite tb hl
    | none =>
      by_cases hc : env.copyFails e
      · simpa [hc] using h
      · simpa [hc] using hwrite e.content hl

theorem processEntry_lookup_mono (env : Env) (st : RunState)
    (e : DirEntry) (n b : String)
    (h : fsLookup st.thumbs n = some b) :
    fsLookup (processEntry env st e).1.thumbs n = some b := by
  unfold processEntry
  by_cases hq : qual e
  · simpa [hq] using ensure_thumbnail_lookup_mono env st e n b h
  · simpa [hq] using h

theorem ensure_thumbnail_settled (env : Env) (st : RunState) (e : DirEntry) :
    settled env (ensure_thumbnail env st e).1 e := by
  unfold settled ensure_thumbnail
  cases hl : fsLookup st.thumbs e.name with
  | some c => simp [hl]
  | none =>
    cases hg : env.gen e with
    | some tb => simp [fsLookup_fsWrite]
    | none =>
      by_cases hc : env.copyFails e
      · simp [hc, hg]
      · simp [hc, fsLookup_fsWrite]

theorem processEntry_settled_self (env : Env) (st : RunState) (e : DirEntry)
    (hq : qual e = true) : settled env (processEntry env st e).1 e := by
  unfold processEntry
  simpa [hq] using ensure_thumbnail_settled env st e

theorem settled_of_thumbs_eq (env : Env) (st st' : RunState) (e : DirEntry)
    (ht : st'.thumbs = st.thumbs) (h : settled env st e) :
    settled env st' e := by
  unfold settled at *
  rw [ht]
  exact h

theorem processEntry_settled_pres (env : Env) (st : RunState)
    (e e' : DirEntry) (h : settled env st e') :
    settled env (processEntry env st e).1 e' := by
  cases h with
  | inl hl =>
    left
    obtain ⟨b, hb⟩ := Option.isSome_iff_exists.mp hl
    rw [processEntry_lookup_mono env st e e'.name b hb]
    rfl
  | inr hr => right; exact hr

theorem runEntries_settled_pres (env : Env) (st : RunState)
    (es : List DirEntry) (e' : DirEntry) (h : settled env st e') :
    settled env (runEntries env st es).1 e' := by
  induction es generalizing st with
  | nil => simpa [runEntries] using h
  | cons f fs ih =>
    simp only [runEntries]
    exact ih _ (processEntry_settled_pres env st f e' h)

theorem runEntries_settled (env : Env) (st : RunState) (es : List DirEntry) :
    ∀ e ∈ es, qual e = true → settled env (runEntries env st es).1 e := by
  induction es generalizing st with
  | nil => intro e he; cases he
  | cons f fs ih =>
    intro e he hq
    simp only [runEntries]
    rcases List.mem_cons.mp he with rfl | hmem
    · exact runEntries_settled_pres env _ fs e
        (processEntry_settled_self env st e hq)
    · exact ih _ e hmem hq

theorem processEntry_thumbs_of_settled (env : Env) (st : RunState)
    (e : DirEntry) (h : settled env st e) :
    (processEntry env st e).1.thumbs = st.thumbs := by
  unfold processEntry
  by_cases hq : qual e
  · simp only [hq, if_true]
    unfold ensure_thumbnail
    cases hl : fsLookup st.thumbs e.name with
    | some c => rfl
    | none =>
      cases h with
      | inl hs => rw [hl] at hs; cases hs
      | inr hr =>
        rw [hr.1]
        simp [hr.2]
  · simp [hq]

theorem runEntries_thumbs_of_settled (env : Env) (st : RunState)
    (es : List DirEntry)
    (h : ∀ e ∈ es, qual e = true → settled env st e) :
    (runEntries env st es).1.thumbs = st.thumbs := by
  induction es generalizing st with
  | nil => rfl
  | cons f fs ih =>
    simp only [runEntries]
    have hstep : (processEntry env st f).1.thumbs = st.thumbs := by
      by_cases hq : qual f
      · exact processEntry_thumbs_of_settled env st f (h f (by simp) hq)
      · simp [processEntry, hq]
    rw [ih _ (fun e he hq => settled_of_thumbs_eq env st _ e hstep
      (h e (List.mem_cons_of_mem f he) hq))]
    exact hstep

/-- Running the collector loop a second time over the same entries leaves
every thumbnail file exactly as the first run left it. -/
theorem runEntries_twice_thumbs (env : Env) (st : RunState)
    (es : List DirEntry) :
    (runEntries env (runEntries env st es).1 es).1.thumbs =
      (runEntries env st es).1.thumbs :=
  runEntries_thumbs_of_settled env _ es
    (fun e he hq => runEntries_settled env st es e he hq)

/-! ### Unfolding the parser cascade branch by branch -/

theorem isSep_not_digit (c : Char) (h : isSep c = true) :
    c.isDigit = false := by
  simp only [isSep, Bool.or_eq_true, decide_eq_true_eq] at h
  rcases h with rfl | rfl <;> decide

theorem parse_of_pat1 (filename : String) (yy mm dd : List Char)
    (rest : Option (List Char))
    (h : pat1 (splitextStem filename.data) = some (yy, mm, dd, rest)) :
    parse_date_from_filename filename =
      { date :=
          if validDate (natOfDigits yy) (natOfDigits mm) (natOfDigits dd) then
            some ⟨natOfDigits yy, natOfDigits mm, natOfDigits dd⟩
          else none,
        label := String.mk (yy ++ '-' :: zfill2 mm ++ '-' :: zfill2 dd),
        slug := String.mk (rest.getD []) } := by
  unfold parse_date_from_filename parseFromStem
  rw [h]

theorem parse_of_pat2 (filename : String) (dd mm yy : List Char)
    (rest : Option (List Char))
    (h1 : pat1 (splitextStem filename.data) = none)
    (h : pat2 (splitextStem filename.data) = some (dd, mm, yy, rest)) :
    parse_date_from_filename filename =
      { date :=
          if validDate (natOfDigits yy) (natOfDigits mm) (natOfDigits dd) then
            some ⟨natOfDigits yy, natOfDigits mm, natOfDigits dd⟩
          else none,
        label := String.mk (zfill2 dd ++ '-' :: zfill2 mm ++ '-' :: yy),
        slug := String.mk (rest.getD []) } := by
  unfold parse_date_from_filename parseFromStem
  rw [h1, h]

theorem parse_of_pat3 (filename : String) (mm yy : List Char)
    (rest : Option (List Char))
    (h1 : pat1 (splitextStem filename.data) = none)
    (h2 : pat2 (splitextStem filename.data) = none)
    (h : pat3 (splitextStem filename.data) = some (mm, yy, rest)) :
    parse_date_from_filename filename =
      { date :=
          if validDate (natOfDigits yy) (natOfDigits mm) 1 then
            some ⟨natOfDigits yy, natOfDigits mm, 1⟩
          else none,
        label := String.mk (zfill2 mm ++ '-' :: yy),
        slug := String.mk (rest.getD []) } := by
  unfold parse_date_from_filename parseFromStem
  rw [h1, h2, h]

theorem parse_of_pat4 (filename : String) (yy : List Char)
    (rest : Option (List Char))
    (h1 : pat1 (splitextStem filename.data) = none)
    (h2 : pat2 (splitextStem filename.data) = none)
    (h3 : pat3 (splitextStem filename.data) = none)
    (h : pat4 (splitextStem filename.data) = some (yy, rest)) :
    parse_date_from_filename filename =
      { date :=
          if validDate (natOfDigits yy) 1 1 then
            some ⟨natOfDigits yy, 1, 1⟩
          else none,
        label := String.mk yy,
        slug := String.mk (rest.getD []) } := by
  unfold parse_date_from_filename parseFromStem
  rw [h1, h2, h3, h]

theorem parse_of_findYear (filename : String) (ys : List Char)
    (h1 : pat1 (splitextStem filename.data) = none)
    (h2 : pat2 (splitextStem filename.data) = none)
    (h3 : pat3 (splitextStem filename.data) = none)
    (h4 : pat4 (splitextStem filename.data) = none)
    (h : findYear (splitextStem filename.data) = some ys) :
    parse_date_from_filename filename =
      { date :=
          if validDate (natOfDigits ys) 1 1 then
            some ⟨natOfDigits ys, 1, 1⟩
          else none,
        label := String.mk ys,
        slug := String.mk
          (trimSeps (replaceAll ys (splitextStem filename.data))) } := by
  unfold parse_date_from_filename parseFromStem
  rw [h1, h2, h3, h4, h]

theorem matchDD_build (d tail : List Char)
    (hd : d = [d.headD '0'] ∨ d.length = 2)
    (hdd : ∀ c ∈ d, c.isDigit = true)
    (ht : tail = [] ∨ ∃ s3 slug, isSep s3 = true ∧ tail = s3 :: slug) :
    matchDD (d ++ tail) = some (d, tailOptOf tail) := by
  rcases hd with hd1 | hd2
  · rw [hd1]
    set d1 := d.headD '0' with hd1d
    have h1 : d1.isDigit = true := hdd d1 (by rw [hd1]; simp)
    rcases ht with rfl | ⟨s3, slug, hs3, rfl⟩
    · simp [matchDD, h1, tailOptOf]
    · simp [matchDD, h1, isSep_not_digit s3 hs3, optTail, hs3, tailOptOf]
  · obtain ⟨d1, d2, rfl⟩ := List.length_eq_two.mp hd2
    have h1 : d1.isDigit = true := hdd d1 (by simp)
    have h2 : d2.isDigit = true := hdd d2 (by simp)
    rcases ht with rfl | ⟨s3, slug, hs3, rfl⟩
    · simp [matchDD, h1, h2, optTail, tailOptOf]
    · simp [matchDD, h1, h2, optTail, hs3, tailOptOf]

theorem matchMMDD_build (m d tail : List Char) (s2 : Char)
    (hm : m = [m.headD '0'] ∨ m.length = 2)
    (hmd : ∀ c ∈ m, c.isDigit = true)
    (hd : d = [d.headD '0'] ∨ d.length = 2)
    (hdd : ∀ c ∈ d, c.isDigit = true)
    (hs2 : isSep s2 = true)
    (ht : tail = [] ∨ ∃ s3 slug, isSep s3 = true ∧ tail = s3 :: slug) :
    matchMMDD (m ++ s2 :: (d ++ tail)) = some (m, d, tailOptOf tail) := by
  have hddm := matchDD_build d tail hd hdd ht
  rcases hm with hm1 | hm2
  · rw [hm1]
    set m1 := m.headD '0' with hm1d
    have h1 : m1.isDigit = true := hmd m1 (by rw [hm1]; simp)
    simp [matchMMDD, h1, isSep_not_digit s2 hs2, hs2, hddm]
  · obtain ⟨m1, m2, rfl⟩ := List.length_eq_two.mp hm2
    have h1 : m1.isDigit = true := hmd m1 (by simp)
    have h2 : m2.isDigit = true := hmd m2 (by simp)
    simp [matchMMDD, h1, h2, hs2, hddm]

theorem pat1_build (y m d tail : List Char) (s1 s2 : Char)
    (hy : y.length = 4)
    (hyd : ∀ c ∈ y, c.isDigit = true)
    (hm : m = [m.headD '0'] ∨ m.length = 2)
    (hmd : ∀ c ∈ m, c.isDigit = true)
    (hd : d = [d.headD '0'] ∨ d.length = 2)
    (hdd : ∀ c ∈ d, c.isDigit = true)
    (hs1 : isSep s1 = true) (hs2 : isSep s2 = true)
    (ht : tail = [] ∨ ∃ s3 slug, isSep s3 = true ∧ tail = s3 :: slug) :
    pat1 (y ++ s1 :: (m ++ s2 :: (d ++ tail))) =
      some (y, m, d, tailOptOf tail) := by
  match y, hy with
  | [y1, y2, y3, y4], _ =>
    have h1 : y1.isDigit = true := hyd y1 (by simp)
    have h2 : y2.isDigit = true := hyd y2 (by simp)
    have h3 : y3.isDigit = true := hyd y3 (by simp)
    have h4 : y4.isDigit = true := hyd y4 (by simp)
    have hmm := matchMMDD_build m d tail s2 hm hmd hd hdd hs2 ht
    simp [pat1, h1, h2, h3, h4, hs1, hmm]

/-- C3: for every filename whose extension-stripped stem is a four-digit
year, a separator, a one/two-digit month, a separator, a one/two-digit day,
and an optional separator-plus-slug — i.e. matches the `YYYY-MM-DD` /
`YYYY_MM_DD` prefix pattern — and whose encoded date is calendar-valid,
`parse_date_from_filename` returns exactly that calendar date, the label
`YYYY-MM-DD` (month and day zero-filled to two digits), and the slug. -/
theorem c3_ymd_prefix_parse (filename : String) (y m d tail : List Char)
    (s1 s2 : Char)
    (hy : y.length = 4) (hyd : ∀ c ∈ y, c.isDigit = true)
    (hm : m = [m.headD '0'] ∨ m.length = 2) (hmd : ∀ c ∈ m, c.isDigit = true)
    (hd : d = [d.headD '0'] ∨ d.length = 2) (hdd : ∀ c ∈ d, c.isDigit = true)
    (hs1 : isSep s1 = true) (hs2 : isSep s2 = true)
    (ht : tail = [] ∨ ∃ s3 slug, isSep s3 = true ∧ tail = s3 :: slug)
    (hstem : splitextStem filename.data = y ++ s1 :: (m ++ s2 :: (d ++ tail)))
    (hvalid : validDate (natOfDigits y) (natOfDigits m) (natOfDigits d)
      = true) :
    parse_date_from_filename filename =
      { date := some ⟨natOfDigits y, natOfDigits m, natOfDigits d⟩,
        label := String.mk (y ++ '-' :: zfill2 m ++ '-' :: zfill2 d),
        slug := String.mk ((tailOptOf tail).getD []) } := by
  have hp : pat1 (splitextStem filename.data) = some (y, m, d, tailOptOf tail) := by
    rw [hstem]
    exact pat1_build y m d tail s1 s2 hy hyd hm hmd hd hdd hs1 hs2 ht
  rw [parse_of_pat1 filename y m d (tailOptOf tail) hp]
  simp [hvalid]

/-- C3, witnessed on the spec's concrete example. -/
theorem c3_witness :
    parse_date_from_filename "2024-01-15-briefing.jpg" =
      { date := some ⟨2024, 1, 15⟩, label := "2024-01-15",
        slug := "briefing" } ∧
    humanize_title "briefing" = "Briefing" := by
  constructor
  · have h := c3_ymd_prefix_parse "2024-01-15-briefing.jpg" "2024".data
      "01".data "15".data "-briefing".data '-' '-' (by decide) (by decide)
      (Or.inr (by decide)) (by decide) (Or.inr (by decide)) (by decide)
      (by decide) (by decide)
      (Or.inr ⟨'-', "briefing".data, by decide, rfl⟩)
      (by decide) (by decide)
    exact h.trans (by decide)
  · decide

/-! ### Invalid calendar dates keep their labels (C4) -/

theorem stringMk_ne_empty (l : List Char) (h : l ≠ []) :
    String.mk l ≠ "" := by
  intro hc
  exact h (by simpa using congrArg String.data hc)

theorem append_cons_ne_nil (l w : List Char) (c : Char) :
    l ++ c :: w ≠ [] := by
  cases l <;> simp

theorem matchY4Tail_shape (name yy : List Char) (t : Option (List Char))
    (h : matchY4Tail name = some (yy, t)) : yy ≠ [] := by
  cases name with
  | nil => exact Option.noConfusion h
  | cons y1 r1 =>
  cases r1 with
  | nil => exact Option.noConfusion h
  | cons y2 r2 =>
  cases r2 with
  | nil => exact Option.noConfusion h
  | cons y3 r3 =>
  cases r3 with
  | nil => exact Option.noConfusion h
  | cons y4 rest =>
  rw [show matchY4Tail (y1 :: y2 :: y3 :: y4 :: rest) =
      (if (y1.isDigit && y2.isDigit && y3.isDigit && y4.isDigit) = true then
        Option.map (fun t => ([y1, y2, y3, y4], t)) (optTail rest)
      else none) from rfl] at h
  split_ifs at h with hc
  rw [Option.map_eq_some'] at h
  obtain ⟨t', ht', heq⟩ := h
  injection heq with hl hr
  rw [← hl]
  simp

/-- C4: whenever the stem matches one of the four structured prefix
patterns but the encoded numeric date is calendar-invalid, the parser
returns no date (the `except ValueError` branch), yet still returns the
textual label built from the matched digits, and that label is non-empty.
Being a total function, the parser surfaces no error. -/
theorem c4_invalid_date_label (filename : String) :
    (∀ yy mm dd t, pat1 (splitextStem filename.data) = some (yy, mm, dd, t) →
      validDate (natOfDigits yy) (natOfDigits mm) (natOfDigits dd) = false →
      (parse_date_from_filename filename).date = none ∧
      (parse_date_from_filename filename).label =
        String.mk (yy ++ '-' :: zfill2 mm ++ '-' :: zfill2 dd) ∧
      (parse_date_from_filename filename).label ≠ "") ∧
    (pat1 (splitextStem filename.data) = none →
      ∀ dd mm yy t, pat2 (splitextStem filename.data) = some (dd, mm, yy, t) →
      validDate (natOfDigits yy) (natOfDigits mm) (natOfDigits dd) = false →
      (parse_date_from_filename filename).date = none ∧
      (parse_date_from_filename filename).label =
        String.mk (zfill2 dd ++ '-' :: zfill2 mm ++ '-' :: yy) ∧
      (parse_date_from_filename filename).label ≠ "") ∧
    (pat1 (splitextStem filename.data) = none →
      pat2 (splitextStem filename.data) = none →
      ∀ mm yy t, pat3 (splitextStem filename.data) = some (mm, yy, t) →
      validDate (natOfDigits yy) (natOfDigits mm) 1 = false →
      (parse_date_from_filename filename).date = none ∧
      (parse_date_from_filename filename).label =
        String.mk (zfill2 mm ++ '-' :: yy) ∧
      (parse_date_from_filename filename).label ≠ "") ∧
    (pat1 (splitextStem filename.data) = none →
      pat2 (splitextStem filename.data) = none →
      pat3 (splitextStem filename.data) = none →
      ∀ yy t, pat4 (splitextStem filename.data) = some (yy, t) →
      validDate (natOfDigits yy) 1 1 = false →
      (parse_date_from_filename filename).date = none ∧
      (parse_date_from_filename filename).label = String.mk yy ∧
      (parse_date_from_filename filename).label ≠ "") := by
  refine ⟨?_, ?_, ?_, ?_⟩
  · intro yy mm dd t h hinv
    rw [parse_of_pat1 filename yy mm dd t h]
    refine ⟨by simp [hinv], rfl, ?_⟩
    exact stringMk_ne_empty _ (append_cons_ne_nil _ _ _)
  · intro h1 dd mm yy t h hinv
    rw [parse_of_pat2 filename dd mm yy t h1 h]
    refine ⟨by simp [hinv], rfl, ?_⟩
    exact stringMk_ne_empty _ (append_cons_ne_nil _ _ _)
  · intro h1 h2 mm yy t h hinv
    rw [parse_of_pat3 filename mm yy t h1 h2 h]
    refine ⟨by simp [hinv], rfl, ?_⟩
    exact stringMk_ne_empty _ (append_cons_ne_nil _ _ _)
  · intro h1 h2 h3 yy t h hinv
    rw [parse_of_pat4 filename yy t h1 h2 h3 h]
    refine ⟨by simp [hinv], rfl, ?_⟩
    exact stringMk_ne_empty _ (matchY4Tail_shape _ yy t h)

/-- C4, witnessed on the spec's month-13 example. -/
theorem c4_witness :
    (parse_date_from_filename "2024-13-45-bad.jpg").date = none ∧
    (parse_date_from_filename "2024-13-45-bad.jpg").label = "2024-13-45" ∧
    (parse_date_from_filename "2024-13-45-bad.jpg").label ≠ "" := by
  have h := (c4_invalid_date_label "2024-13-45-bad.jpg").1 "2024".data
    "13".data "45".data (some "bad".data) (by decide) (by decide)
  exact ⟨h.1, h.2.1.trans (by decide), h.2.2⟩

/-! ### The anywhere-in-string year fallback (C5) -/

theorem findYear_shape : ∀ (s ys : List Char), findYear s = some ys →
    ∃ c d, (ys = ['1', '9', c, d] ∨ ys = ['2', '0', c, d]) ∧
      c.isDigit = true ∧ d.isDigit = true := by
  intro s
  induction s with
  | nil => intro ys h; exact Option.noConfusion h
  | cons a s' ih =>
    intro ys h
    cases s' with
    | nil => exact Option.noConfusion h
    | cons b r2 =>
    cases r2 with
    | nil => exact Option.noConfusion h
    | cons c r3 =>
    cases r3 with
    | nil => exact Option.noConfusion h
    | cons d rest =>
    rw [show findYear (a :: b :: c :: d :: rest) =
        (if (((a = '1' && b = '9') || (a = '2' && b = '0')) && c.isDigit
            && d.isDigit) = true
         then some [a, b, c, d]
         else findYear (b :: c :: d :: rest)) from rfl] at h
    split_ifs at h with hcond
    · injection h with h'
      simp only [Bool.and_eq_true, Bool.or_eq_true, decide_eq_true_eq]
        at hcond
      obtain ⟨⟨hab, hc⟩, hd⟩ := hcond
      refine ⟨c, d, ?_, hc, hd⟩
      rcases hab with ⟨rfl, rfl⟩ | ⟨rfl, rfl⟩
      · left; rw [← h']
      · right; rw [← h']
    · exact ih ys h

theorem isDigit_toNat (c : Char) (h : c.isDigit = true) :
    48 ≤ c.toNat ∧ c.toNat ≤ 57 := by
  simp only [Char.isDigit, Bool.and_eq_true, decide_eq_true_eq, ge_iff_le]
    at h
  obtain ⟨h1, h2⟩ := h
  exact ⟨UInt32.le_toNat_of_le (by norm_num) h1,
    UInt32.toNat_le_of_le (by norm_num) h2⟩

theorem natOfDigits_year_range (ys : List Char) (c d : Char)
    (hshape : ys = ['1', '9', c, d] ∨ ys = ['2', '0', c, d])
    (hc : c.isDigit = true) (hd : d.isDigit = true) :
    1900 ≤ natOfDigits ys ∧ natOfDigits ys ≤ 2099 := by
  obtain ⟨hc1, hc2⟩ := isDigit_toNat c hc
  obtain ⟨hd1, hd2⟩ := isDigit_toNat d hd
  have e1 : ('1' : Char).toNat = 49 := rfl
  have e9 : ('9' : Char).toNat = 57 := rfl
  have e2 : ('2' : Char).toNat = 50 := rfl
  have e0 : ('0' : Char).toNat = 48 := rfl
  rcases hshape with rfl | rfl <;>
    simp only [natOfDigits, List.foldl, e1, e9, e2, e0] <;> omega

theorem validDate_y11 (y : Nat) (h1 : 1 ≤ y) (h2 : y ≤ 9999) :
    validDate y 1 1 = true := by
  simp [validDate, daysInMonth, h1, h2]

/-- C5: when none of the four structured prefix patterns matches the
extension-stripped stem but it contains a four-digit run starting `19` or
`20`, the parser returns January 1 of (the leftmost) such year, the year
digits as the label, and as slug the stem with every occurrence of the year
digits removed and leading/trailing `-`/`_` runs trimmed. -/
theorem c5_year_fallback (filename : String) (ys : List Char)
    (h1 : pat1 (splitextStem filename.data) = none)
    (h2 : pat2 (splitextStem filename.data) = none)
    (h3 : pat3 (splitextStem filename.data) = none)
    (h4 : pat4 (splitextStem filename.data) = none)
    (h : findYear (splitextStem filename.data) = some ys) :
    parse_date_from_filename filename =
      { date := some ⟨natOfDigits ys, 1, 1⟩,
        label := String.mk ys,
        slug := String.mk
          (trimSeps (replaceAll ys (splitextStem filename.data))) } := by
  obtain ⟨c, d, hshape, hc, hd⟩ := findYear_shape _ ys h
  obtain ⟨hlo, hhi⟩ := natOfDigits_year_range ys c d hshape hc hd
  rw [parse_of_findYear filename ys h1 h2 h3 h4 h]
  simp [validDate_y11 (natOfDigits ys) (by omega) (by omega)]

/-- C5, witnessed on the spec's concrete example. -/
theorem c5_witness :
    parse_date_from_filename "misc_report_1944.jpg" =
      { date := some ⟨1944, 1, 1⟩, label := "1944", slug := "misc_report" } := by
  have h := c5_year_fallback "misc_report_1944.jpg" "1944".data
    (by decide) (by decide) (by decide) (by decide) (by decide)
  exact h.trans (by decide)

theorem eventsOf_eq_collected (entries : List DirEntry) :
    eventsOf entries = (collectedWKs entries).map (·.ev) := rfl

theorem evLe_total_bool (a b : WK) : (evLe a b || evLe b a) = true := by
  rcases evLe_total a b with h | h <;> simp [h]

theorem entryLe_total_bool (a b : DirEntry) :
    (entryLe a b || entryLe b a) = true := by
  rcases entryLe_total a b with h | h <;> simp [h]

theorem collect_events_ok_inv (env : Env) (st st1 : RunState)
    (evs : List Event)
    (h : collect_events env st = Except.ok (st1, evs)) :
    env.imagesDirExists = true ∧ evs = eventsOf env.entries := by
  by_cases hd : env.imagesDirExists
  · refine ⟨hd, ?_⟩
    rw [collect_events_ok env st hd] at h
    injection h with h'
    have := congrArg Prod.snd h'
    simpa using this.symm
  · exfalso
    simp only [collect_events, hd] at h
    cases h

theorem parseFromStem_valid (name : List Char) (d : PDate)
    (h : (parseFromStem name).date = some d) :
    validDate d.year d.month d.day = true := by
  unfold parseFromStem at h
  cases hp1 : pat1 name with
  | some v1 =>
    obtain ⟨yy, mm, dd, rest⟩ := v1
    rw [hp1] at h
    simp only [] at h
    split_ifs at h with hv
    injection h with h'
    rw [← h']
    exact hv
  | none =>
  rw [hp1] at h
  cases hp2 : pat2 name with
  | some v2 =>
    obtain ⟨dd, mm, yy, rest⟩ := v2
    rw [hp2] at h
    simp only [] at h
    split_ifs at h with hv
    injection h with h'
    rw [← h']
    exact hv
  | none =>
  rw [hp2] at h
  cases hp3 : pat3 name with
  | some v3 =>
    obtain ⟨mm, yy, rest⟩ := v3
    rw [hp3] at h
    simp only [] at h
    split_ifs at h with hv
    injection h with h'
    rw [← h']
    exact hv
  | none =>
  rw [hp3] at h
  cases hp4 : pat4 name with
  | some v4 =>
    obtain ⟨yy, rest⟩ := v4
    rw [hp4] at h
    simp only [] at h
    split_ifs at h with hv
    injection h with h'
    rw [← h']
    exact hv
  | none =>
  rw [hp4] at h
  cases hp5 : findYear name with
  | some ys =>
    rw [hp5] at h
    simp only [] at h
    split_ifs at h with hv
    injection h with h'
    rw [← h']
    exact hv
  | none =>
    rw [hp5] at h
    cases h

theorem mkWK_dt (entries : List DirEntry) (e : DirEntry) (thumbName : String) :
    (mkWK entries e thumbName).dt = (parse_date_from_filename e.name).date :=
  rfl

theorem assembledWKs_valid (entries : List DirEntry) :
    ∀ w ∈ assembledWKs entries, ∀ d, w.dt = some d →
      validDate d.year d.month d.day = true := by
  intro w hw d hd
  obtain ⟨e, he, rfl⟩ := List.mem_map.mp hw
  rw [mkWK_dt] at hd
  exact parseFromStem_valid _ d hd

theorem evLe_none_right (a b : WK) (h : evLe a b = true) (ha : a.dt = none) :
    b.dt = none := by
  unfold evLe keyLe at h
  rw [ha] at h
  cases hb : b.dt with
  | none => rfl
  | some db =>
    rw [hb] at h
    simp at h

theorem evLe_dates (a b : WK) (h : evLe a b = true) (d1 d2 : PDate)
    (ha : a.dt = some d1) (hb : b.dt = some d2)
    (hv1 : validDate d1.year d1.month d1.day = true)
    (hv2 : validDate d2.year d2.month d2.day = true) : dateLe d1 d2 := by
  unfold evLe keyLe sortKey at h
  rw [ha, hb] at h
  simp only [Option.isNone_some, Option.map_some', Option.getD_some,
    if_pos rfl] at h
  exact (charsLe_iso d1 d2 hv1 hv2).mp h

theorem evLe_of_sortKey_eq (a b : WK) (h : sortKey a = sortKey b) :
    evLe a b = true := by
  unfold sortKey at h
  unfold evLe keyLe sortKey
  cases hda : a.dt with
  | none =>
    cases hdb : b.dt with
    | none => simp [charsLe]
    | some db => rw [hda, hdb] at h; simp at h
  | some da =>
    cases hdb : b.dt with
    | none => rw [hda, hdb] at h; simp at h
    | some db =>
      rw [hda, hdb] at h
      simp only [Option.map_some', Option.some.injEq] at h
      simp [h, charsLe_refl]

/-- C2: in the event list returned by `collect_events`, the records (paired
with their parsed dates) are the stable `evLe`-sort of the assembly-order
list: every record with a date precedes every record without one, dated
records are in non-decreasing chronological order, and filtering down to any
one sort key — in particular to the date-less class — returns the records in
their original assembly (lexicographic scan) order. -/
theorem c2_sorted_events (env : Env) (st st1 : RunState) (evs : List Event)
    (h : collect_events env st = Except.ok (st1, evs)) :
    evs = (collectedWKs env.entries).map (·.ev) ∧
    List.Pairwise (fun a b => (a.dt = none → b.dt = none) ∧
      ∀ d1 d2, a.dt = some d1 → b.dt = some d2 → dateLe d1 d2)
      (collectedWKs env.entries) ∧
    ∀ k : Option String,
      (collectedWKs env.entries).filter (fun w => sortKey w == k) =
        (assembledWKs env.entries).filter (fun w => sortKey w == k) := by
  obtain ⟨hd, hevs⟩ := collect_events_ok_inv env st st1 evs h
  refine ⟨by rw [hevs, eventsOf_eq_collected], ?_, ?_⟩
  · have hs := List.sorted_mergeSort
      (fun a b c => evLe_trans a b c) evLe_total_bool
      (assembledWKs env.entries)
    refine hs.imp_of_mem ?_
    intro a b ha hb hab
    have ha' : a ∈ assembledWKs env.entries := List.mem_mergeSort.mp ha
    have hb' : b ∈ assembledWKs env.entries := List.mem_mergeSort.mp hb
    refine ⟨fun han => evLe_none_right a b hab han, ?_⟩
    intro d1 d2 ha1 hb1
    exact evLe_dates a b hab d1 d2 ha1 hb1
      (assembledWKs_valid env.entries a ha' d1 ha1)
      (assembledWKs_valid env.entries b hb' d2 hb1)
  · intro k
    exact filter_mergeSort_eq evLe (fun a b c => evLe_trans a b c)
      evLe_total_bool _
      (fun a b hpa hpb =>
        evLe_of_sortKey_eq a b
          ((eq_of_beq hpa).trans (eq_of_beq hpb).symm))
      (assembledWKs env.entries)

unseal List.merge List.mergeSort in
/-- C2, instantiated on a one-image directory. -/
theorem c2_witness :
    [sampleEvent] = (collectedWKs sampleEnv.entries).map (·.ev) ∧
    List.Pairwise (fun a b => (a.dt = none → b.dt = none) ∧
      ∀ d1 d2, a.dt = some d1 → b.dt = some d2 → dateLe d1 d2)
      (collectedWKs sampleEnv.entries) ∧
    ∀ k : Option String,
      (collectedWKs sampleEnv.entries).filter (fun w => sortKey w == k) =
        (assembledWKs sampleEnv.entries).filter (fun w => sortKey w == k) :=
  c2_sorted_events sampleEnv emptyState sampleState1 [sampleEvent]
    (by decide)

/-! ### One event per accepted file, in lexicographic scan order (C9) -/

/-- C9: `collect_events` yields exactly one event per direct-child regular
file whose lowercased extension is `.jpg`/`.jpeg`/`.png` (all other entries
skipped, no recursion — `qual`), the loop visits those files in
code-point-lexicographic name order (a sorted permutation of the directory
listing), and the returned list is a permutation of the per-file events. -/
theorem c9_one_event_per_file (env : Env) (st st1 : RunState)
    (evs : List Event)
    (h : collect_events env st = Except.ok (st1, evs)) :
    evs.Perm (((env.entries.mergeSort entryLe).filter qual).map
      (fun e => (mkWK env.entries e e.name).ev)) ∧
    List.Pairwise (fun a b => entryLe a b = true)
      (env.entries.mergeSort entryLe) ∧
    (env.entries.mergeSort entryLe).Perm env.entries := by
  obtain ⟨hd, hevs⟩ := collect_events_ok_inv env st st1 evs h
  refine ⟨?_, ?_, List.mergeSort_perm _ _⟩
  · rw [hevs, eventsOf_eq_collected]
    have hp : (collectedWKs env.entries).Perm (assembledWKs env.entries) :=
      List.mergeSort_perm _ _
    have hm := hp.map (·.ev)
    rw [assembledWKs, List.map_map] at hm
    exact hm
  · exact List.sorted_mergeSort (fun a b c => entryLe_trans a b c)
      entryLe_total_bool _

unseal List.merge List.mergeSort in
/-- C9, instantiated on a one-image directory. -/
theorem c9_witness :
    [sampleEvent].Perm
      (((sampleEnv.entries.mergeSort entryLe).filter qual).map
        (fun e => (mkWK sampleEnv.entries e e.name).ev)) ∧
    List.Pairwise (fun a b => entryLe a b = true)
      (sampleEnv.entries.mergeSort entryLe) ∧
    (sampleEnv.entries.mergeSort entryLe).Perm sampleEnv.entries :=
  c9_one_event_per_file sampleEnv emptyState sampleState1 [sampleEvent]
    (by decide)

/-! ### The `year` field (C6) -/

/-- C6: every returned event comes from one accepted file, its `year` field
is the three-stage cascade — year of the parsed date, else first `19xx`/`20xx`
run of the label, else of the extension-stripped stem — and it can be absent
only when the parser found no date (and both fallback searches fail). -/
theorem c6_year_field (env : Env) (st st1 : RunState) (evs : List Event)
    (h : collect_events env st = Except.ok (st1, evs)) :
    ∀ ev ∈ evs, ∃ e, e ∈ env.entries ∧ qual e = true ∧
      ev = (mkWK env.entries e e.name).ev ∧
      ev.year = derivedYear (parse_date_from_filename e.name)
        (String.mk (splitextStem e.name.data)) ∧
      (∀ d, (parse_date_from_filename e.name).date = some d →
        ev.year = some d.year) ∧
      (ev.year = none →
        (parse_date_from_filename e.name).date = none ∧
        findYear (parse_date_from_filename e.name).label.data = none ∧
        findYear (splitextStem e.name.data) = none) := by
  obtain ⟨hd, hevs⟩ := collect_events_ok_inv env st st1 evs h
  intro ev hev
  rw [hevs, eventsOf_eq_collected] at hev
  obtain ⟨w, hw, rfl⟩ := List.mem_map.mp hev
  have hw' : w ∈ assembledWKs env.entries := List.mem_mergeSort.mp hw
  obtain ⟨e, he, rfl⟩ := List.mem_map.mp hw'
  have heq : e ∈ env.entries ∧ qual e = true := by
    have := List.mem_filter.mp he
    exact ⟨List.mem_mergeSort.mp this.1, this.2⟩
  refine ⟨e, heq.1, heq.2, rfl, rfl, ?_, ?_⟩
  · intro d hdd
    show derivedYear (parse_date_from_filename e.name)
      (String.mk (splitextStem e.name.data)) = some d.year
    unfold derivedYear
    rw [hdd]
  · intro hy
    replace hy : derivedYear (parse_date_from_filename e.name)
        (String.mk (splitextStem e.name.data)) = none := hy
    unfold derivedYear at hy
    cases hpd : (parse_date_from_filename e.name).date with
    | some d => rw [hpd] at hy; cases hy
    | none =>
      rw [hpd] at hy
      cases hfl : findYear (parse_date_from_filename e.name).label.data with
      | some ys => rw [hfl] at hy; cases hy
      | none =>
        rw [hfl] at hy
        cases hfs : findYear (splitextStem e.name.data) with
        | some ys =>
          rw [show (String.mk (splitextStem e.name.data)).data =
            splitextStem e.name.data from rfl, hfs] at hy
          cases hy
        | none => exact ⟨rfl, rfl, rfl⟩

unseal List.merge List.mergeSort in
/-- C6, instantiated on a one-image directory at its single event. -/
theorem c6_witness :
    ∃ e, e ∈ sampleEnv.entries ∧ qual e = true ∧
      sampleEvent = (mkWK sampleEnv.entries e e.name).ev ∧
      sampleEvent.year = derivedYear (parse_date_from_filename e.name)
        (String.mk (splitextStem e.name.data)) ∧
      (∀ d, (parse_date_from_filename e.name).date = some d →
        sampleEvent.year = some d.year) ∧
      (sampleEvent.year = none →
        (parse_date_from_filename e.name).date = none ∧
        findYear (parse_date_from_filename e.name).label.data = none ∧
        findYear (splitextStem e.name.data) = none) :=
  c6_year_field sampleEnv emptyState sampleState1 [sampleEvent] (by decide)
    sampleEvent (by decide)

/-! ### Empty or missing images directory (C1) -/

unseal List.merge List.mergeSort in
/-- C1 as stated is false: with the images directory present but empty, the
timeline generator does NOT stop — `main` unconditionally writes the output
after `collect_events` returns, here with zero events (`Except.ok` is the
file write). -/
theorem c1_counterexample :
    timelineMain envNoImages emptyState = Except.ok (emptyState, []) := by
  decide

/-- C1 amended: when the images directory exists but contains no accepted
image files the timeline generator still writes the output page, with an
empty event list (as the binder generator also does); only a missing images
directory terminates the run early, via `SystemExit`. -/
theorem c1_amended :
    (∀ env st, env.imagesDirExists = true → env.entries.filter qual = [] →
      timelineMain env st =
        Except.ok ((runEntries env st (env.entries.mergeSort entryLe)).1,
          [])) ∧
    (∀ env st, env.imagesDirExists = false →
      timelineMain env st =
        Except.error "Images directory not found: images") ∧
    (∀ names : List String, names.filter binderExtOk = [] →
      binderMain names = ([], true)) := by
  refine ⟨?_, ?_, ?_⟩
  · intro env st hd hq
    show collect_events env st = _
    rw [collect_events_ok env st hd]
    have hf : (env.entries.mergeSort entryLe).filter qual = [] := by
      have hp := (List.mergeSort_perm env.entries entryLe).filter qual
      rw [hq] at hp
      exact List.perm_nil.mp hp
    have hev : eventsOf env.entries = [] := by
      unfold eventsOf
      rw [hf]
      simp
    rw [hev]
  · intro env st hd
    show collect_events env st = _
    simp [collect_events, hd]
  · intro names hf
    unfold binderMain
    rw [hf]
    simp

/-- C1 amended, instantiated. -/
theorem c1_witness :
    timelineMain envNoImages emptyState =
      Except.ok ((runEntries envNoImages emptyState
        (envNoImages.entries.mergeSort entryLe)).1, []) ∧
    timelineMain envMissing emptyState =
      Except.error "Images directory not found: images" ∧
    binderMain ["notes.txt"] = ([], true) :=
  ⟨c1_amended.1 envNoImages emptyState rfl rfl,
   c1_amended.2.1 envMissing emptyState rfl,
   c1_amended.2.2 ["notes.txt"] (by decide)⟩

/-! ### Thumbnail idempotence (C7) -/

/-- C7: when a same-named thumbnail already exists, `ensure_thumbnail`
returns its path without touching the cache; consequently a second
collector run over unchanged inputs leaves the thumbnail files
byte-identical to what the first run left. -/
theorem c7_thumbnail_idempotent :
    (∀ env st e b, fsLookup st.thumbs e.name = some b →
      (ensure_thumbnail env st e).1.thumbs = st.thumbs ∧
      (ensure_thumbnail env st e).2 = ⟨"images/thumbs", e.name⟩) ∧
    (∀ env st st1 evs st2 evs2,
      collect_events env st = Except.ok (st1, evs) →
      collect_events env st1 = Except.ok (st2, evs2) →
      st2.thumbs = st1.thumbs) := by
  constructor
  · intro env st e b hb
    refine ⟨?_, ensure_thumbnail_path env st e⟩
    unfold ensure_thumbnail
    rw [hb]
  · intro env st st1 evs st2 evs2 h1 h2
    obtain ⟨hd, -⟩ := collect_events_ok_inv env st st1 evs h1
    have e1 := (collect_events_ok env st hd).symm.trans h1
    injection e1 with e1'
    have hst1 := congrArg Prod.fst e1'
    have e2 := (collect_events_ok env st1 hd).symm.trans h2
    injection e2 with e2'
    have hst2 := congrArg Prod.fst e2'
    simp only [] at hst1 hst2
    subst hst1
    subst hst2
    exact runEntries_twice_thumbs env st (env.entries.mergeSort entryLe)

unseal List.merge List.mergeSort in
/-- C7, instantiated: an existing thumbnail is left alone, and a second
full run changes no thumbnail files. -/
theorem c7_witness :
    ((ensure_thumbnail sampleEnv thumbedState sampleEntry).1.thumbs =
        thumbedState.thumbs ∧
      (ensure_thumbnail sampleEnv thumbedState sampleEntry).2 =
        ⟨"images/thumbs", sampleEntry.name⟩) ∧
    sampleState1.thumbs = sampleState1.thumbs :=
  ⟨c7_thumbnail_idempotent.1 sampleEnv thumbedState sampleEntry "old"
      (by decide),
   c7_thumbnail_idempotent.2 sampleEnv emptyState sampleState1 [sampleEvent]
      sampleState1 [sampleEvent] (by decide) (by decide)⟩

/-! ### Thumbnail failure fallback (C8) -/

/-- C8: when thumbnail generation fails, `ensure_thumbnail` copies the
original bytes verbatim to the cache after logging one warning; when the
copy also fails it logs a second warning and writes nothing — and in every
case the collector still produces the full event list determined by the
directory listing alone, so no failure aborts the run. -/
theorem c8_thumbnail_fallback :
    (∀ env st e, fsLookup st.thumbs e.name = none → env.gen e = none →
      env.copyFails e = false →
      (ensure_thumbnail env st e).1.thumbs =
        fsWrite st.thumbs e.name e.content ∧
      (ensure_thumbnail env st e).1.log =
        st.log ++ [Warn.thumbFail e.name]) ∧
    (∀ env st e, fsLookup st.thumbs e.name = none → env.gen e = none →
      env.copyFails e = true →
      (ensure_thumbnail env st e).1.thumbs = st.thumbs ∧
      (ensure_thumbnail env st e).1.log =
        st.log ++ [Warn.thumbFail e.name, Warn.copyFail e.name]) ∧
    (∀ env st st1 evs, collect_events env st = Except.ok (st1, evs) →
      evs = eventsOf env.entries) := by
  refine ⟨?_, ?_, ?_⟩
  · intro env st e hl hg hc
    unfold ensure_thumbnail
    rw [hl, hg, hc]
    simp
  · intro env st e hl hg hc
    unfold ensure_thumbnail
    rw [hl, hg, hc]
    simp
  · intro env st st1 evs h
    exact (collect_events_ok_inv env st st1 evs h).2

unseal List.merge List.mergeSort in
/-- C8, instantiated: generator failure with a successful copy, double
failure, and an unaffected event list. -/
theorem c8_witness :
    ((ensure_thumbnail genFailEnv emptyState sampleEntry).1.thumbs =
        fsWrite emptyState.thumbs sampleEntry.name sampleEntry.content ∧
      (ensure_thumbnail genFailEnv emptyState sampleEntry).1.log =
        emptyState.log ++ [Warn.thumbFail sampleEntry.name]) ∧
    ((ensure_thumbnail bothFailEnv emptyState sampleEntry).1.thumbs =
        emptyState.thumbs ∧
      (ensure_thumbnail bothFailEnv emptyState sampleEntry).1.log =
        emptyState.log ++ [Warn.thumbFail sampleEntry.name,
          Warn.copyFail sampleEntry.name]) ∧
    [sampleEvent] = eventsOf sampleEnv.entries :=
  ⟨c8_thumbnail_fallback.1 genFailEnv emptyState sampleEntry rfl rfl rfl,
   c8_thumbnail_fallback.2.1 bothFailEnv emptyState sampleEntry rfl rfl rfl,
   c8_thumbnail_fallback.2.2 sampleEnv emptyState sampleState1 [sampleEvent]
     (by decide)⟩

/-! ### The returned thumbnail path (C10) -/

/-- C10: `ensure_thumbnail` always returns the thumbnail-directory path
with the source file's name — also when generation and the fallback copy
both fail, in which case that path refers to no cached file; hence every
event's `image` field is set to the join of the thumbnail directory and the
source file's name, whether or not the file exists. -/
theorem c10_thumb_path :
    (∀ env st e,
      (ensure_thumbnail env st e).2 = ⟨"images/thumbs", e.name⟩) ∧
    (∀ env st e, fsLookup st.thumbs e.name = none → env.gen e = none →
      env.copyFails e = true →
      fsLookup (ensure_thumbnail env st e).1.thumbs e.name = none) ∧
    (∀ env st st1 evs, collect_events env st = Except.ok (st1, evs) →
      ∀ ev ∈ evs, ∃ e, e ∈ env.entries ∧
        ev.image = "images/thumbs/" ++ e.name) := by
  refine ⟨ensure_thumbnail_path, ?_, ?_⟩
  · intro env st e hl hg hc
    unfold ensure_thumbnail
    rw [hl, hg, hc]
    simpa using hl
  · intro env st st1 evs h ev hev
    obtain ⟨hd, hevs⟩ := collect_events_ok_inv env st st1 evs h
    rw [hevs, eventsOf_eq_collected] at hev
    obtain ⟨w, hw, rfl⟩ := List.mem_map.mp hev
    obtain ⟨e, he, rfl⟩ := List.mem_map.mp (List.mem_mergeSort.mp hw)
    have hmem : e ∈ env.entries :=
      List.mem_mergeSort.mp (List.mem_filter.mp he).1
    exact ⟨e, hmem, rfl⟩

unseal List.merge List.mergeSort in
/-- C10, instantiated: the returned path, a double failure leaving no file
behind that path, and the `image` field of the sample event. -/
theorem c10_witness :
    (ensure_thumbnail sampleEnv emptyState sampleEntry).2 =
      ⟨"images/thumbs", sampleEntry.name⟩ ∧
    fsLookup (ensure_thumbnail bothFailEnv emptyState sampleEntry).1.thumbs
      sampleEntry.name = none ∧
    ∀ ev ∈ [sampleEvent], ∃ e, e ∈ sampleEnv.entries ∧
      ev.image = "images/thumbs/" ++ e.name :=
  ⟨c10_thumb_path.1 sampleEnv emptyState sampleEntry,
   c10_thumb_path.2.1 bothFailEnv emptyState sampleEntry rfl rfl rfl,
   c10_thumb_path.2.2 sampleEnv emptyState sampleState1 [sampleEvent]
     (by decide)⟩
